import Mathlib

/-!
Verification of the static-images sizing core (`src/utilities.ts`).

The embedding models JavaScript numbers as exact rationals extended with
signed infinities and NaN (`JSVal`), since the code performs divisions that
can produce non-finite values.  Strings are modelled as Lean strings, with
the `cssValue` regex split implemented over the character list.
-/

namespace StaticImages

/-- A JavaScript number: a finite rational, a signed infinity, or NaN. -/
inductive JSVal where
  | num (q : ℚ)
  | inf (pos : Bool)
  | nan
deriving DecidableEq

/-- JavaScript multiplication on `JSVal`. -/
def jsMul : JSVal → JSVal → JSVal
  | .nan, _ => .nan
  | _, .nan => .nan
  | .num p, .num q => .num (p * q)
  | .inf s, .num q => if q = 0 then .nan else .inf (s == decide (0 < q))
  | .num q, .inf s => if q = 0 then .nan else .inf (s == decide (0 < q))
  | .inf s, .inf t => .inf (s == t)

/-- JavaScript division of two finite numbers (`x / y`). -/
def jsDivQ (x y : ℚ) : JSVal :=
  if y = 0 then (if x = 0 then .nan else .inf (decide (0 < x))) else .num (x / y)

/-- JavaScript division on `JSVal`. -/
def jsDiv : JSVal → JSVal → JSVal
  | .nan, _ => .nan
  | _, .nan => .nan
  | .num p, .num q => jsDivQ p q
  | .inf s, .num q => if q = 0 then .inf s else .inf (s == decide (0 < q))
  | .num _, .inf _ => .num 0
  | .inf _, .inf _ => .nan

/-- JavaScript comparison `v < q` (false on NaN). -/
def jsLtQ : JSVal → ℚ → Bool
  | .num p, q => decide (p < q)
  | .inf s, _ => !s
  | .nan, _ => false

/-- JavaScript comparison `v ≤ q` (false on NaN). -/
def jsLeVQ : JSVal → ℚ → Bool
  | .num p, q => decide (p ≤ q)
  | .inf s, _ => !s
  | .nan, _ => false

/-- JavaScript comparison `q ≤ v` (false on NaN). -/
def jsLeQV (q : ℚ) : JSVal → Bool
  | .num p => decide (q ≤ p)
  | .inf s => s
  | .nan => false

/-- JavaScript `Math.ceil` (identity on infinities and NaN). -/
def jsCeil : JSVal → JSVal
  | .num q => .num ((⌈q⌉ : ℤ) : ℚ)
  | v => v

/-! ## The `cssValue` parser

`const valueRegex = /([\d.]+)(\D*)/` and
`cssValue = v => { ... v.match(valueRegex) ... return [Number(value), unit] }`. -/

/-- A character matched by the regex class `[\d.]`. -/
def isValueChar (c : Char) : Bool := c.isDigit || c == '.'

/-- Locates the first match of `([\d.]+)` in the character list: returns the
maximal run of value characters starting at the first value character,
together with the remaining characters after the run. -/
def firstRun : List Char → Option (List Char × List Char)
  | [] => none
  | c :: cs =>
    if isValueChar c then
      some ((c :: cs).takeWhile isValueChar, (c :: cs).dropWhile isValueChar)
    else firstRun cs

/-- Numeric value of a digit list (most significant first). -/
def digitsToNat (l : List Char) : ℕ :=
  l.foldl (fun acc c => 10 * acc + (c.toNat - 48)) 0

/-- `Number(s)` for a nonempty string `s` of digits and dots, as produced by
the `([\d.]+)` capture group: a single optional dot splits integer and
fractional digits; two or more dots (or a lone dot) give NaN. -/
def ratOfRun (run : List Char) : JSVal :=
  let dots := run.count '.'
  if dots = 0 then .num (digitsToNat run)
  else if dots = 1 then
    let ip := run.takeWhile (fun c => c ≠ '.')
    let fp := (run.dropWhile (fun c => c ≠ '.')).drop 1
    if ip.isEmpty && fp.isEmpty then .nan
    else .num ((digitsToNat ip : ℚ) + (digitsToNat fp : ℚ) / (10 : ℚ) ^ fp.length)
  else .nan

/-- `Number(v)` for a string `v` containing no digit and no dot (the case in
which `valueRegex` does not match): the empty/whitespace string is 0,
the `Infinity` spellings are infinite, and everything else is NaN. -/
def jsNumberOfNonValue (l : List Char) : JSVal :=
  let t := ((l.dropWhile Char.isWhitespace).reverse.dropWhile Char.isWhitespace).reverse
  if t.isEmpty then .num 0
  else if t = "Infinity".data || t = "+Infinity".data then .inf true
  else if t = "-Infinity".data then .inf false
  else .nan

/-- `cssValue`: parses a string as a value with an optional unit.  On a regex
match the captures are the value run and the following run of non-digits;
otherwise the value is `Number(v)` and the unit is the empty string. -/
def cssValue (v : String) : JSVal × String :=
  match firstRun v.data with
  | some (run, rest) => (ratOfRun run, String.mk (rest.takeWhile (fun c => !c.isDigit)))
  | none => (jsNumberOfNonValue v.data, "")

/-! ## Data model -/

/-- A media query condition, such as `(min-width: 600px)`. -/
structure MediaCondition where
  mediaFeature : String
  value : String
deriving DecidableEq

/-- A rule for the img sizes attribute, such as `(min-width: 600px) 400px`. -/
structure Size where
  conditions : List MediaCondition
  width : String
deriving DecidableEq

/-- A supported device (`interface Device extends Dimension`). -/
structure Device where
  w : ℚ
  h : ℚ
  dppx : List ℚ
  flip : Bool
deriving DecidableEq

/-! ## `deviceWidths` -/

/-- One condition check of the inner loop of `deviceWidths`: parses the
condition value, throws on a non-`px` unit, and otherwise evaluates the
min/max width/height comparison (false for any other feature). -/
def condMatch (d : Device) (c : MediaCondition) : Except String Bool :=
  let (value, unit) := cssValue c.value
  if unit ≠ "px" then
    .error ("Invalid query unit " ++ unit ++ ": only px is supported")
  else
    .ok ((decide (c.mediaFeature = "min-width") && jsLeVQ value d.w) ||
         (decide (c.mediaFeature = "max-width") && jsLeQV d.w value) ||
         (decide (c.mediaFeature = "min-height") && jsLeVQ value d.h) ||
         (decide (c.mediaFeature = "max-height") && jsLeQV d.h value))

/-- The inner loop of `deviceWidths`: checks a rule's conditions in order;
the first failing condition aborts the rule (`continue whichSize`), so
later conditions of a failing rule are not parsed. -/
def checkConds (d : Device) : List MediaCondition → Except String Bool
  | [] => .ok true
  | c :: cs =>
    match condMatch d c with
    | .error e => .error e
    | .ok true => checkConds d cs
    | .ok false => .ok false

/-- The labelled loop of `deviceWidths`: `imgWidth` is assigned each rule's
width before its conditions are checked, a fully matching rule breaks, and
a failing rule leaves its width in `imgWidth` (the accumulator).  If no
rule matches, the final accumulator — the LAST rule's width, or `none`
for an empty rule list — is the result. -/
def selectImgWidth (d : Device) : List Size → Option String → Except String (Option String)
  | [], acc => .ok acc
  | s :: rest, _ =>
    match checkConds d s.conditions with
    | .error e => .error e
    | .ok true => .ok (some s.width)
    | .ok false => selectImgWidth d rest (some s.width)

/-- The width resolution step of the dppx loop:
`let [scaledWidth, unit] = cssValue(imgWidth); if (unit === 'vw') scaledWidth = device.w * scaledWidth / 100`. -/
def scaledWidthOf (d : Device) (iw : String) : JSVal :=
  let (v, unit) := cssValue iw
  if unit = "vw" then jsDiv (jsMul (.num d.w) v) (.num 100) else v

/-- `Set.add` with JavaScript same-value-zero semantics and insertion order. -/
def insertSet (acc : List JSVal) (x : JSVal) : List JSVal :=
  if x ∈ acc then acc else acc ++ [x]

/-- The `device.dppx.forEach` loop of `deviceWidths`.  Reading `imgWidth`
when it was never assigned (`none`) is the runtime type error raised by
`imgWidth.match` inside `cssValue`; it fires only if the loop body runs. -/
def widthsLoop (d : Device) (iw : Option String) : List ℚ → List JSVal → Except String (List JSVal)
  | [], acc => .ok acc
  | dppx :: rest, acc =>
    match iw with
    | none => .error "TypeError: Cannot read properties of undefined"
    | some s =>
      let sw := scaledWidthOf d s
      let w := jsCeil (jsMul sw (.num dppx))
      widthsLoop d iw rest (insertSet acc w)

/-- `deviceWidths(sizes, device)`: the rule-selection loop followed by the
dppx loop; the returned list is the `Set` in insertion order. -/
def deviceWidths (sizes : List Size) (d : Device) : Except String (List JSVal) :=
  match selectImgWidth d sizes none with
  | .error e => .error e
  | .ok iw => widthsLoop d iw d.dppx []

/-! ## `filterSizes`

The source is overloaded over `number[]` and `Dimension[]`; both overloads
run the same loop, reading a "width", a "height" and a sort key off each
element (`isDimension(x) ? x.w : x` and so on).  A `FilterView` packages
those projections together with JavaScript truthiness of an element. -/

/-- `Dimension`: `{ w: number, h: number }`. -/
structure Dimension where
  w : ℚ
  h : ℚ
deriving DecidableEq

/-- The element projections used by `filterSizes`. -/
structure FilterView (α : Type) where
  getW : α → ℚ
  getH : α → ℚ
  key : α → ℚ
  truthy : α → Bool

/-- The probe test `scale1 * scale2 < factor` of `filterSizes`, with
JavaScript division and multiplication (division by zero gives an
infinity or NaN, and any comparison with NaN is false). -/
def scaleLt (V : FilterView α) (f : ℚ) (b a : α) : Bool :=
  jsLtQ (jsMul (jsDivQ (V.getW b) (V.getW a)) (jsDivQ (V.getH b) (V.getH a))) f

/-- Truthiness of `sorted[j]`, which is `undefined` past the end. -/
def optTruthy (V : FilterView α) : Option α → Bool
  | none => false
  | some x => V.truthy x

/-- The `for (let i = 0, j = 1; i < sorted.length; )` loop of `filterSizes`,
with explicit fuel.  When `sorted[j]` is `undefined` and `sorted[i]` is
falsy, the JavaScript scale product is NaN, the comparison with `factor`
is false, and the loop advances `j` without any other state change —
hence it runs forever; `none` models that diverging loop. -/
def fsGo (V : FilterView α) (f : ℚ) (sorted : List α) : ℕ → ℕ → ℕ → List α → Option (List α)
  | 0, _, _, _ => none
  | fuel + 1, i, j, acc =>
    if hi : i < sorted.length then
      let a := sorted.get ⟨i, hi⟩
      if V.truthy a && !optTruthy V (sorted.get? j) then some (acc ++ [a])
      else
        match sorted.get? j with
        | none => fsGo V f sorted fuel i (j + 1) acc
        | some b =>
          if scaleLt V f b a then fsGo V f sorted fuel j (j + 1) (acc ++ [a])
          else fsGo V f sorted fuel i (j + 1) acc
    else some acc

/-- `[...list].sort(...)`: the JavaScript comparator `(a, b) => b - a`
(resp. `b.w * b.h - a.w * a.h`) is a stable descending sort by the key `k`;
a stable sort is unique, and insertion sort reproduces it exactly. -/
def sortDesc (k : α → ℚ) (l : List α) : List α :=
  l.insertionSort (fun a b => k b ≤ k a)

/-- The view of the `number[]` overload: scale ratios and the sort key are
the value itself; `0` is falsy. -/
def numView : FilterView ℚ := ⟨id, id, id, fun q => decide (q ≠ 0)⟩

/-- The view of the `Dimension[]` overload: per-axis ratios, area sort key;
an object is always truthy. -/
def dimView : FilterView Dimension := ⟨Dimension.w, Dimension.h, fun d => d.w * d.h, fun _ => true⟩

/-- The default `factor` argument `0.8`. -/
def defaultFactor : ℚ := 4 / 5

/-- The body shared by both `filterSizes` overloads: sort descending, then
run the filter loop from `i = 0, j = 1`.  A terminating run of the source
loop advances `j` every iteration, so it returns within `list.length + 1`
loop steps; with that much fuel `none` is exactly the diverging loop. -/
def fsRun (V : FilterView α) (k : α → ℚ) (list : List α) (factor : ℚ) : Option (List α) :=
  fsGo V factor (sortDesc k list) (list.length + 1) 0 1 []

/-- `filterSizes(list, factor)` on flat widths. -/
def filterSizes (list : List ℚ) (factor : ℚ) : Option (List ℚ) :=
  fsRun numView id list factor

/-- `filterSizes(list, factor)` on dimension pairs. -/
def filterSizesDim (list : List Dimension) (factor : ℚ) : Option (List Dimension) :=
  fsRun dimView (fun d => d.w * d.h) list factor

deriving instance DecidableEq for Except

/-! ## Single-step lemmas for the `filterSizes` loop -/

theorem fsGo_zero (V : FilterView α) (f : ℚ) (S : List α) (i j : ℕ) (acc : List α) :
    fsGo V f S 0 i j acc = none := rfl

theorem fsGo_exit (V : FilterView α) (f : ℚ) (S : List α) (fuel i j : ℕ) (acc : List α)
    (hi : ¬ i < S.length) : fsGo V f S (fuel + 1) i j acc = some acc := by
  simp only [fsGo, dif_neg hi]

theorem fsGo_push (V : FilterView α) (f : ℚ) (S : List α) (fuel i j : ℕ) (acc : List α) (b : α)
    (hi : i < S.length) (hb : S.get? j = some b)
    (hhalt : (V.truthy (S.get ⟨i, hi⟩) && !optTruthy V (S.get? j)) = false)
    (hsc : scaleLt V f b (S.get ⟨i, hi⟩) = true) :
    fsGo V f S (fuel + 1) i j acc = fsGo V f S fuel j (j + 1) (acc ++ [S.get ⟨i, hi⟩]) := by
  rw [hb] at hhalt
  simp only [fsGo, dif_pos hi, hb, hhalt, hsc, Bool.false_eq_true, if_false, if_true]

theorem fsGo_skip (V : FilterView α) (f : ℚ) (S : List α) (fuel i j : ℕ) (acc : List α) (b : α)
    (hi : i < S.length) (hb : S.get? j = some b)
    (hhalt : (V.truthy (S.get ⟨i, hi⟩) && !optTruthy V (S.get? j)) = false)
    (hsc : scaleLt V f b (S.get ⟨i, hi⟩) = false) :
    fsGo V f S (fuel + 1) i j acc = fsGo V f S fuel i (j + 1) acc := by
  rw [hb] at hhalt
  simp only [fsGo, dif_pos hi, hb, hhalt, hsc, Bool.false_eq_true, if_false]

theorem fsGo_stop (V : FilterView α) (f : ℚ) (S : List α) (fuel i j : ℕ) (acc : List α)
    (hi : i < S.length)
    (hhalt : (V.truthy (S.get ⟨i, hi⟩) && !optTruthy V (S.get? j)) = true) :
    fsGo V f S (fuel + 1) i j acc = some (acc ++ [S.get ⟨i, hi⟩]) := by
  simp only [fsGo, dif_pos hi, hhalt, if_true]

theorem fsGo_none_skip (V : FilterView α) (f : ℚ) (S : List α) (fuel i j : ℕ) (acc : List α)
    (hi : i < S.length) (hb : S.get? j = none)
    (htr : V.truthy (S.get ⟨i, hi⟩) = false) :
    fsGo V f S (fuel + 1) i j acc = fsGo V f S fuel i (j + 1) acc := by
  simp only [fsGo, dif_pos hi, hb, htr, optTruthy, Bool.false_and, Bool.false_eq_true, if_false]

/-! ## Generic properties of the filter loop -/

theorem sortDesc_perm (k : α → ℚ) (l : List α) : (sortDesc k l).Perm l :=
  List.perm_insertionSort _ l

theorem sortDesc_sorted (k : α → ℚ) (l : List α) :
    List.Sorted (fun a b => k b ≤ k a) (sortDesc k l) := by
  haveI : IsTotal α (fun a b => k b ≤ k a) := ⟨fun a b => le_total (k b) (k a)⟩
  haveI : IsTrans α (fun a b => k b ≤ k a) := ⟨fun _ _ _ h1 h2 => le_trans h2 h1⟩
  exact List.sorted_insertionSort _ l

theorem sortDesc_eq_self (k : α → ℚ) (l : List α)
    (h : List.Sorted (fun a b => k b ≤ k a) l) : sortDesc k l = l :=
  h.insertionSort_eq

/-- Transfers a chain along an implication that may use membership. -/
theorem chain_of_mem_imp {R S : α → α → Prop} {l : List α} (h : List.Chain' R l)
    (hs : ∀ a ∈ l, ∀ b ∈ l, R a b → S a b) : List.Chain' S l := by
  rw [List.chain'_iff_get] at h ⊢
  intro i hi
  exact hs _ (List.get_mem ..) _ (List.get_mem ..) (h i hi)

/-- On a list of truthy elements the loop halts: the probe index `j` grows
by one with every unit of fuel until it leaves the list, at which point the
current (truthy) reference is emitted. -/
theorem fsGo_isSome (V : FilterView α) (f : ℚ) (S : List α)
    (htr : ∀ x ∈ S, V.truthy x = true) :
    ∀ (fuel i j : ℕ) (acc : List α), i < S.length → S.length - j < fuel →
      (fsGo V f S fuel i j acc).isSome = true := by
  intro fuel
  induction fuel with
  | zero => intro i j acc hi hj; omega
  | succ fuel ih =>
    intro i j acc hi hj
    have hti : V.truthy S[i] = true := htr _ (List.getElem_mem hi)
    rcases hb : S.get? j with _ | b
    · rw [fsGo_stop V f S fuel i j acc hi (by rw [hb]; simp [optTruthy, hti])]
      simp
    · have hjl : j < S.length := (List.get?_eq_some.mp hb).1
      have hbt : V.truthy b = true := htr b (List.get?_mem hb)
      have hhalt : (V.truthy (S.get ⟨i, hi⟩) && !optTruthy V (S.get? j)) = false := by
        rw [hb]; simp [optTruthy, hbt]
      by_cases hsc : scaleLt V f b (S.get ⟨i, hi⟩) = true
      · rw [fsGo_push V f S fuel i j acc b hi hb hhalt hsc]
        exact ih j (j + 1) _ hjl (by omega)
      · rw [fsGo_skip V f S fuel i j acc b hi hb hhalt (Bool.not_eq_true _ ▸ hsc)]
        exact ih i (j + 1) acc hi (by omega)

/-- Invariant of a terminating run: the emitted list is chained by the
recorded probe test, and its members come from the sorted candidate list. -/
theorem fsGo_some_chain (V : FilterView α) (f : ℚ) (S : List α) :
    ∀ (fuel i j : ℕ) (acc out : List α) (hi : i < S.length),
      fsGo V f S fuel i j acc = some out →
      List.Chain' (fun a b => scaleLt V f b a = true) (acc ++ [S.get ⟨i, hi⟩]) →
      (∀ x ∈ acc, x ∈ S) →
      List.Chain' (fun a b => scaleLt V f b a = true) out ∧ ∀ x ∈ out, x ∈ S := by
  intro fuel
  induction fuel with
  | zero => intro i j acc out hi h; exact absurd h (by simp [fsGo_zero])
  | succ fuel ih =>
    intro i j acc out hi hrun hch hmem
    have hmem' : ∀ x ∈ acc ++ [S.get ⟨i, hi⟩], x ∈ S := by
      intro x hx
      rcases List.mem_append.mp hx with hx | hx
      · exact hmem x hx
      · rw [List.mem_singleton.mp hx]; exact List.get_mem ..
    by_cases hhalt : (V.truthy (S.get ⟨i, hi⟩) && !optTruthy V (S.get? j)) = true
    · rw [fsGo_stop V f S fuel i j acc hi hhalt] at hrun
      obtain rfl : acc ++ [S.get ⟨i, hi⟩] = out := Option.some.inj hrun
      exact ⟨hch, hmem'⟩
    · have hhalt' : (V.truthy (S.get ⟨i, hi⟩) && !optTruthy V (S.get? j)) = false :=
        Bool.not_eq_true _ ▸ hhalt
      rcases hb : S.get? j with _ | b
      · have htr : V.truthy (S.get ⟨i, hi⟩) = false := by
          rw [hb] at hhalt'; simpa [optTruthy] using hhalt'
        rw [fsGo_none_skip V f S fuel i j acc hi hb htr] at hrun
        exact ih i (j + 1) acc out hi hrun hch hmem
      · by_cases hsc : scaleLt V f b (S.get ⟨i, hi⟩) = true
        · obtain ⟨hj, hbeq⟩ := List.get?_eq_some.mp hb
          rw [fsGo_push V f S fuel i j acc b hi hb hhalt' hsc] at hrun
          refine ih j (j + 1) (acc ++ [S.get ⟨i, hi⟩]) out hj hrun ?_ hmem'
          rw [List.chain'_append]
          refine ⟨hch, List.chain'_singleton _, ?_⟩
          intro x hx y hy
          rw [List.getLast?_concat] at hx
          rw [Option.mem_def, Option.some.injEq] at hx
          simp only [List.head?_cons, Option.mem_def, Option.some.injEq] at hy
          rw [← hx, ← hy, hbeq]
          exact hsc
        · rw [fsGo_skip V f S fuel i j acc b hi hb hhalt' (Bool.not_eq_true _ ▸ hsc)] at hrun
          exact ih i (j + 1) acc out hi hrun hch hmem

/-- Running the loop over a list that is already chained by the probe test
keeps every element: each probe is kept and becomes the new reference. -/
theorem fsGo_keepAll (V : FilterView α) (f : ℚ) (O : List α)
    (htr : ∀ x ∈ O, V.truthy x = true)
    (hch : List.Chain' (fun a b => scaleLt V f b a = true) O) :
    ∀ (fuel i : ℕ) (acc : List α) (hi : i < O.length), O.length - i ≤ fuel →
      fsGo V f O fuel i (i + 1) acc = some (acc ++ O.drop i) := by
  intro fuel
  induction fuel with
  | zero => intro i acc hi h; omega
  | succ fuel ih =>
    intro i acc hi hfuel
    have hdrop : O.drop i = O.get ⟨i, hi⟩ :: O.drop (i + 1) := by
      rw [List.drop_eq_getElem_cons hi]; rfl
    by_cases hj : i + 1 < O.length
    · have hb : O.get? (i + 1) = some (O.get ⟨i + 1, hj⟩) := List.get?_eq_get hj
      have hsc : scaleLt V f (O.get ⟨i + 1, hj⟩) (O.get ⟨i, hi⟩) = true :=
        List.chain'_iff_get.mp hch i (by omega)
      have hhalt : (V.truthy (O.get ⟨i, hi⟩) && !optTruthy V (O.get? (i + 1))) = false := by
        rw [hb]; simp [optTruthy, htr _ (List.getElem_mem hj)]
      rw [fsGo_push V f O fuel i (i + 1) acc _ hi hb hhalt hsc,
        ih (i + 1) (acc ++ [O.get ⟨i, hi⟩]) hj (by omega), hdrop]
      simp
    · have hb : O.get? (i + 1) = none := List.get?_eq_none.mpr (by omega)
      have hhalt : (V.truthy (O.get ⟨i, hi⟩) && !optTruthy V (O.get? (i + 1))) = true := by
        rw [hb]; simp [optTruthy, htr _ (List.getElem_mem hi)]
      rw [fsGo_stop V f O fuel i (i + 1) acc hi hhalt, hdrop,
        List.drop_eq_nil_of_le (by omega)]

/-- A run of either `filterSizes` overload that returns keeps only elements
of the input, chained consecutively by the recorded probe test. -/
theorem fsRun_some_props (V : FilterView α) (k : α → ℚ) (L O : List α) (f : ℚ)
    (h : fsRun V k L f = some O) :
    List.Chain' (fun a b => scaleLt V f b a = true) O ∧ ∀ x ∈ O, x ∈ L := by
  rw [fsRun] at h
  rcases Nat.eq_zero_or_pos (sortDesc k L).length with h0 | hpos
  · rw [fsGo_exit _ _ _ _ _ _ _ (by omega)] at h
    obtain rfl : ([] : List α) = O := Option.some.inj h
    exact ⟨List.chain'_nil, by simp⟩
  · have hprops := fsGo_some_chain V f (sortDesc k L) (L.length + 1) 0 1 [] O hpos h
      (List.chain'_singleton _) (by simp)
    exact ⟨hprops.1, fun x hx => (sortDesc_perm k L).mem_iff.mp (hprops.2 x hx)⟩

/-- On truthy candidates either `filterSizes` overload terminates within its
linear fuel budget. -/
theorem fsRun_isSome (V : FilterView α) (k : α → ℚ) (L : List α) (f : ℚ)
    (htr : ∀ x ∈ L, V.truthy x = true) : (fsRun V k L f).isSome = true := by
  rw [fsRun]
  rcases Nat.eq_zero_or_pos (sortDesc k L).length with h0 | hpos
  · rw [fsGo_exit _ _ _ _ _ _ _ (by omega)]; rfl
  · have hlen : (sortDesc k L).length = L.length := (sortDesc_perm k L).length_eq
    exact fsGo_isSome V f _ (fun x hx => htr x ((sortDesc_perm k L).mem_iff.mp hx))
      (L.length + 1) 0 1 [] hpos (by omega)

/-- A list that is already sorted descending, truthy, and chained by the
probe test is returned unchanged by either `filterSizes` overload. -/
theorem fsRun_keepAll (V : FilterView α) (k : α → ℚ) (L : List α) (f : ℚ)
    (htr : ∀ x ∈ L, V.truthy x = true)
    (hsorted : List.Sorted (fun a b => k b ≤ k a) L)
    (hch : List.Chain' (fun a b => scaleLt V f b a = true) L) :
    fsRun V k L f = some L := by
  rw [fsRun, sortDesc_eq_self k L hsorted]
  rcases Nat.eq_zero_or_pos L.length with h0 | hpos
  · rw [fsGo_exit _ _ _ _ _ _ _ (by omega)]
    simp [List.length_eq_zero.mp h0]
  · rw [fsGo_keepAll V f L htr hch (L.length + 1) 0 [] hpos (by omega)]
    simp

/-! ## Instance lemmas for the two overloads -/

theorem scaleLt_num_eval (f b a : ℚ) (ha : a ≠ 0) :
    scaleLt numView f b a = decide (b / a * (b / a) < f) := by
  simp [scaleLt, jsDivQ, jsMul, jsLtQ, numView, ha]

theorem scaleLt_dim_eval (f : ℚ) (b a : Dimension) (haw : a.w ≠ 0) (hah : a.h ≠ 0) :
    scaleLt dimView f b a = decide (b.w / a.w * (b.h / a.h) < f) := by
  simp [scaleLt, jsDivQ, jsMul, jsLtQ, dimView, haw, hah]

theorem scaleLt_num_lt {f b a : ℚ} (hf : f ≤ 1) (ha : 0 < a) (hb : 0 < b)
    (h : scaleLt numView f b a = true) : b < a := by
  rw [scaleLt_num_eval f b a (ne_of_gt ha), decide_eq_true_eq] at h
  have hr0 : 0 < b / a := div_pos hb ha
  have hr1 : b / a < 1 := by nlinarith [sq_nonneg (b / a - 1)]
  exact (div_lt_one ha).mp hr1

theorem scaleLt_num_of_lt {b a : ℚ} (ha : 0 < a) (hb : 0 < b) (h : b < a) :
    scaleLt numView 1 b a = true := by
  rw [scaleLt_num_eval _ _ _ (ne_of_gt ha), decide_eq_true_eq]
  have hr1 : b / a < 1 := (div_lt_one ha).mpr h
  have hr0 : 0 < b / a := div_pos hb ha
  nlinarith

theorem scaleLt_dim_lt {f : ℚ} {b a : Dimension} (hf : f ≤ 1)
    (haw : 0 < a.w) (hah : 0 < a.h) (h : scaleLt dimView f b a = true) :
    b.w * b.h < a.w * a.h := by
  rw [scaleLt_dim_eval f b a (ne_of_gt haw) (ne_of_gt hah), decide_eq_true_eq,
    div_mul_div_comm] at h
  exact (div_lt_one (by positivity)).mp (lt_of_lt_of_le h hf)

theorem scaleLt_dim_of_lt {b a : Dimension} (haw : 0 < a.w) (hah : 0 < a.h)
    (h : b.w * b.h < a.w * a.h) : scaleLt dimView 1 b a = true := by
  rw [scaleLt_dim_eval _ _ _ (ne_of_gt haw) (ne_of_gt hah), decide_eq_true_eq,
    div_mul_div_comm]
  exact (div_lt_one (by positivity)).mpr h

theorem num_truthy {x : ℚ} (hx : 0 < x) : numView.truthy x = true := by
  simp [numView]; exact ne_of_gt hx

theorem dim_truthy (x : Dimension) : dimView.truthy x = true := rfl

/-! ## Evaluation helpers -/

theorem jsMul_num (p q : ℚ) : jsMul (.num p) (.num q) = .num (p * q) := rfl

theorem jsDiv_num (p q : ℚ) : jsDiv (.num p) (.num q) = jsDivQ p q := rfl

theorem jsCeil_num (q : ℚ) : jsCeil (.num q) = .num ((⌈q⌉ : ℤ) : ℚ) := rfl

theorem px_ne_vw : ("px" : String) ≠ "vw" := by decide

theorem em_ne_vw : ("em" : String) ≠ "vw" := by decide

theorem cssValue_400px : cssValue "400px" = (.num 400, "px") := by decide

theorem cssValue_400em : cssValue "400em" = (.num 400, "em") := by decide

theorem cssValue_100vw : cssValue "100vw" = (.num 100, "vw") := by decide

theorem cssValue_680px : cssValue "680px" = (.num 680, "px") := by decide

/-- The `([\d.]+)` capture group never produces an infinite value. -/
theorem ratOfRun_ne_inf (run : List Char) (b : Bool) : ratOfRun run ≠ .inf b := by
  unfold ratOfRun
  dsimp only
  split
  · simp
  · split
    · split <;> simp
    · simp

/-- An infinite parsed value only arises in the no-match branch of
`cssValue`, whose unit is the empty string. -/
theorem cssValue_inf_unit (s : String) (b : Bool) (u : String)
    (h : cssValue s = (.inf b, u)) : u = "" := by
  rw [cssValue] at h
  rcases hfr : firstRun s.data with _ | p
  · rw [hfr] at h
    exact ((Prod.ext_iff.mp h).2).symm
  · obtain ⟨run, rest⟩ := p
    rw [hfr] at h
    exact absurd (Prod.ext_iff.mp h).1 (ratOfRun_ne_inf run b)

/-! ## Specification-side rule matching (following the claim wording) -/

/-- Follows the claim's words, not the code: a `min-width`/`min-height`
condition holds iff the device's corresponding dimension is `≥` the
condition's parsed value, a `max-*` condition iff it is `≤`; any other
feature (or an unparseable value) does not hold. -/
def specCondHolds (d : Device) (c : MediaCondition) : Bool :=
  match (cssValue c.value).1 with
  | .num q =>
    (decide (c.mediaFeature = "min-width") && decide (q ≤ d.w)) ||
    (decide (c.mediaFeature = "max-width") && decide (d.w ≤ q)) ||
    (decide (c.mediaFeature = "min-height") && decide (q ≤ d.h)) ||
    (decide (c.mediaFeature = "max-height") && decide (d.h ≤ q))
  | _ => false

/-- A rule matches a device when all of its conditions hold. -/
def ruleMatches (d : Device) (s : Size) : Bool := s.conditions.all (specCondHolds d)

/-- On `px`-unit conditions, the code's condition check agrees with the
specification-side predicate and raises no error. -/
theorem condMatch_eq_spec (d : Device) (c : MediaCondition)
    (hpx : (cssValue c.value).2 = "px") :
    condMatch d c = .ok (specCondHolds d c) := by
  rcases hcv : cssValue c.value with ⟨v, u⟩
  have hu : u = "px" := by rw [hcv] at hpx; exact hpx
  subst hu
  rcases v with q | b | _
  · simp [condMatch, specCondHolds, hcv, jsLeVQ, jsLeQV]
  · exact absurd (cssValue_inf_unit c.value b "px" hcv) (by decide)
  · simp [condMatch, specCondHolds, hcv, jsLeVQ, jsLeQV]

/-- On `px`-unit conditions the inner loop computes exactly `List.all`. -/
theorem checkConds_eq_spec (d : Device) (conds : List MediaCondition)
    (hwf : ∀ c ∈ conds, (cssValue c.value).2 = "px") :
    checkConds d conds = .ok (conds.all (specCondHolds d)) := by
  induction conds with
  | nil => rfl
  | cons c cs ih =>
    rw [checkConds, condMatch_eq_spec d c (hwf c (by simp))]
    cases hc : specCondHolds d c
    · simp [hc]
    · simpa [hc] using ih fun c' hc' => hwf c' (by simp [hc'])

/-- First-match selection: if some rule matches the device, the selection
loop returns the width of the FIRST matching rule, whatever the
accumulator holds. -/
theorem selectImgWidth_first_match (d : Device) (sizes : List Size) (s : Size)
    (acc : Option String)
    (hwf : ∀ t ∈ sizes, ∀ c ∈ t.conditions, (cssValue c.value).2 = "px")
    (hfind : sizes.find? (ruleMatches d) = some s) :
    selectImgWidth d sizes acc = .ok (some s.width) := by
  induction sizes generalizing acc with
  | nil => simp at hfind
  | cons t rest ih =>
    rw [selectImgWidth, checkConds_eq_spec d t.conditions (hwf t (by simp))]
    cases hm : ruleMatches d t
    · have hm' : t.conditions.all (specCondHolds d) = false := hm
      rw [List.find?_cons_of_neg _ (by simp [hm])] at hfind
      rw [hm']
      exact ih (some t.width) (fun t' ht' c hc => hwf t' (by simp [ht']) c hc) hfind
    · have hm' : t.conditions.all (specCondHolds d) = true := hm
      rw [List.find?_cons_of_pos _ (by simp [hm])] at hfind
      obtain rfl := Option.some.inj hfind
      rw [hm']

/-! ## `widthsLoop` characterization -/

theorem mem_insertSet {acc : List JSVal} {x y : JSVal} :
    y ∈ insertSet acc x ↔ y ∈ acc ∨ y = x := by
  by_cases h : x ∈ acc
  · simp only [insertSet, if_pos h]
    exact ⟨Or.inl, fun hy => hy.elim id fun he => he ▸ h⟩
  · simp [insertSet, if_neg h]

theorem widthsLoop_ok (d : Device) (iw : String) :
    ∀ (dppx : List ℚ) (acc : List JSVal),
      widthsLoop d (some iw) dppx acc
        = .ok (dppx.foldl
            (fun l x => insertSet l (jsCeil (jsMul (scaledWidthOf d iw) (.num x)))) acc) := by
  intro dppx
  induction dppx with
  | nil => intro acc; rfl
  | cons x rest ih => intro acc; rw [widthsLoop, ih]; rfl

theorem mem_foldl_insertSet (g : ℚ → JSVal) :
    ∀ (dppx : List ℚ) (acc : List JSVal) (y : JSVal),
      (y ∈ dppx.foldl (fun l x => insertSet l (g x)) acc) ↔
        y ∈ acc ∨ ∃ x ∈ dppx, y = g x := by
  intro dppx
  induction dppx with
  | nil => simp
  | cons z rest ih =>
    intro acc y
    rw [List.foldl_cons, ih, mem_insertSet]
    constructor
    · rintro ((hy | hy) | ⟨x, hx, hy⟩)
      · exact Or.inl hy
      · exact Or.inr ⟨z, by simp, hy⟩
      · exact Or.inr ⟨x, by simp [hx], hy⟩
    · rintro (hy | ⟨x, hx, hy⟩)
      · exact Or.inl (Or.inl hy)
      · rcases List.mem_cons.mp hx with rfl | hx
        · exact Or.inl (Or.inr hy)
        · exact Or.inr ⟨x, hx, hy⟩

/-! ## Claims about `deviceWidths` -/

/-- C1: at the device `{w: 555, h: 600, dppx: [1]}` and the all-failing
conditional rule list `[(min-width: 680px) 400px]`, `deviceWidths` emits
`{400}` — it reuses the last (failing) rule's width `400px` — and not
`{555}`, the width the implicit `100vw` fallback of the specification
(`ceil(555 * 1)`) would produce. -/
theorem c1_no_implicit_100vw_fallback :
    deviceWidths [⟨[⟨"min-width", "680px"⟩], "400px"⟩] ⟨555, 600, [1], false⟩
        = .ok [.num 400] ∧
      (Except.ok [JSVal.num 400] : Except String (List JSVal)) ≠ .ok [.num 555] := by
  constructor
  · have hsel : selectImgWidth ⟨555, 600, [1], false⟩
        [⟨[⟨"min-width", "680px"⟩], "400px"⟩] none = .ok (some "400px") := by decide
    simp only [deviceWidths, hsel]
    norm_num [widthsLoop, scaledWidthOf, insertSet, jsMul_num, jsCeil_num, cssValue_400px,
      px_ne_vw]
  · decide

/-- C2: the resolver selects the first rule (in list order) whose conditions
all hold, with `min-*` meaning `≥` and `max-*` meaning `≤`; and swapping two
overlapping rules changes which width is resolved (`400px` vs `800px` at a
`700×500` device). -/
theorem c2_first_match_selection :
    (∀ (d : Device) (sizes : List Size) (s : Size),
        (∀ t ∈ sizes, ∀ c ∈ t.conditions, (cssValue c.value).2 = "px") →
        sizes.find? (ruleMatches d) = some s →
        selectImgWidth d sizes none = .ok (some s.width)) ∧
      selectImgWidth ⟨700, 500, [1], false⟩
          [⟨[⟨"min-width", "500px"⟩], "400px"⟩, ⟨[⟨"min-width", "600px"⟩], "800px"⟩] none
        = .ok (some "400px") ∧
      selectImgWidth ⟨700, 500, [1], false⟩
          [⟨[⟨"min-width", "600px"⟩], "800px"⟩, ⟨[⟨"min-width", "500px"⟩], "400px"⟩] none
        = .ok (some "800px") :=
  ⟨fun d sizes s hwf hfind => selectImgWidth_first_match d sizes s none hwf hfind,
   by decide, by decide⟩

/-- C4 counterexample: a width token with the unsupported unit `em` does NOT
raise an error: `deviceWidths` treats `400em` like `400px` and returns
`{400}` instead of failing. -/
theorem c4_counterexample_em_width_unit :
    deviceWidths [⟨[], "400em"⟩] ⟨1000, 800, [1], false⟩ = .ok [.num 400] ∧
      ∀ e : String, deviceWidths [⟨[], "400em"⟩] ⟨1000, 800, [1], false⟩ ≠ .error e := by
  have h : deviceWidths [⟨[], "400em"⟩] ⟨1000, 800, [1], false⟩ = .ok [.num 400] := by
    have hsel : selectImgWidth ⟨1000, 800, [1], false⟩ [⟨[], "400em"⟩] none
        = .ok (some "400em") := by decide
    simp only [deviceWidths, hsel]
    norm_num [widthsLoop, scaledWidthOf, insertSet, jsMul_num, jsCeil_num, cssValue_400em,
      em_ne_vw]
  exact ⟨h, fun e he => by rw [h] at he; exact Except.noConfusion he⟩

/-- C4 (amended): resolving a width token whose parsed value is a number:
unit `vw` gives `device.w * magnitude / 100`; ANY other unit — `px`,
absent, or an unsupported one like `em` — gives the magnitude itself, and
no error is raised on the width path (only condition units are checked). -/
theorem c4_width_resolution_amended (d : Device) (iw : String) (q : ℚ) (u : String)
    (hparse : cssValue iw = (.num q, u)) :
    (u = "vw" → scaledWidthOf d iw = .num (d.w * q / 100)) ∧
      (u ≠ "vw" → scaledWidthOf d iw = .num q) := by
  constructor <;> intro hu
  · subst hu
    simp [scaledWidthOf, hparse, jsMul, jsDiv, jsDivQ]
  · simp [scaledWidthOf, hparse, hu]

/-- Witness for C4 at concrete width tokens. -/
theorem c4_width_resolution_witness :
    scaledWidthOf ⟨555, 600, [1], false⟩ "100vw" = .num (555 * 100 / 100) ∧
      scaledWidthOf ⟨555, 600, [1], false⟩ "400px" = .num 400 :=
  ⟨(c4_width_resolution_amended ⟨555, 600, [1], false⟩ "100vw" 100 "vw" cssValue_100vw).1 rfl,
   (c4_width_resolution_amended ⟨555, 600, [1], false⟩ "400px" 400 "px" cssValue_400px).2
      (by decide)⟩

/-- C5: for a resolved positive effective width `q`, the dppx loop returns
exactly the set of `ceil(q * d)` over the densities `d` — each a positive
integer, rounded up and never down — and on the spec's example
(width `400px`, densities `[4, 3.2, 2, 1.5, 1]`) the emitted widths are
`[1600, 1280, 800, 600, 400]`, in density order. -/
theorem c5_density_widths :
    (∀ (d : Device) (iw : String) (q : ℚ), scaledWidthOf d iw = .num q → 0 < q →
        (∀ x ∈ d.dppx, 0 < x) →
        ∃ L, widthsLoop d (some iw) d.dppx [] = .ok L ∧
          (∀ v ∈ L, ∃ x ∈ d.dppx, v = .num ((⌈q * x⌉ : ℤ) : ℚ)) ∧
          (∀ x ∈ d.dppx, JSVal.num ((⌈q * x⌉ : ℤ) : ℚ) ∈ L) ∧
          (∀ x ∈ d.dppx, 0 < ⌈q * x⌉ ∧ q * x ≤ (⌈q * x⌉ : ℤ))) ∧
      deviceWidths [⟨[⟨"min-width", "680px"⟩], "400px"⟩]
          ⟨800, 700, [4, 16 / 5, 2, 3 / 2, 1], false⟩
        = .ok [.num 1600, .num 1280, .num 800, .num 600, .num 400] := by
  constructor
  · intro d iw q hq hqpos hdp
    refine ⟨_, widthsLoop_ok d iw d.dppx [], ?_, ?_, ?_⟩
    · intro v hv
      have := (mem_foldl_insertSet _ d.dppx [] v).mp hv
      rcases this with h | ⟨x, hx, hv⟩
      · simp at h
      · exact ⟨x, hx, by rw [hv, hq, jsMul_num, jsCeil_num]⟩
    · intro x hx
      refine (mem_foldl_insertSet _ d.dppx [] _).mpr (Or.inr ⟨x, hx, ?_⟩)
      rw [hq, jsMul_num, jsCeil_num]
    · intro x hx
      exact ⟨Int.ceil_pos.mpr (mul_pos hqpos (hdp x hx)), Int.le_ceil _⟩
  · have hsel : selectImgWidth ⟨800, 700, [4, 16 / 5, 2, 3 / 2, 1], false⟩
        [⟨[⟨"min-width", "680px"⟩], "400px"⟩] none = .ok (some "400px") := by decide
    simp only [deviceWidths, hsel]
    norm_num [widthsLoop, scaledWidthOf, insertSet, jsMul_num, jsCeil_num, cssValue_400px,
      px_ne_vw]

/-- C10 counterexample: `deviceWidths` called with an empty rule list and a
device with an EMPTY density list returns the empty set without raising any
error — the dppx loop body, where the undefined `imgWidth` would be read,
never runs. -/
theorem c10_counterexample_empty_dppx :
    deviceWidths [] ⟨100, 100, [], false⟩ = .ok [] ∧
      deviceWidths [] ⟨100, 100, [], false⟩
        ≠ .error "TypeError: Cannot read properties of undefined" := by
  decide

/-- C10 (amended): with an empty rule list and at least one density, no
width token is ever assigned, the unit-value parse is applied to the
undefined width, and the call fails with a runtime type error instead of
returning widths (no `100vw` fallback). -/
theorem c10_empty_rules_type_error (d : Device) (hd : d.dppx ≠ []) :
    deviceWidths [] d = .error "TypeError: Cannot read properties of undefined" := by
  obtain ⟨w, h, dppx, fl⟩ := d
  cases dppx with
  | nil => exact absurd rfl hd
  | cons x rest => rfl

/-- Witness for C10 at a concrete device. -/
theorem c10_empty_rules_witness :
    deviceWidths [] ⟨100, 100, [1], false⟩
      = .error "TypeError: Cannot read properties of undefined" :=
  c10_empty_rules_type_error ⟨100, 100, [1], false⟩ (by decide)

/-- A list chained by the probe test after sorting is returned in full,
sorted, by either overload. -/
theorem fsRun_keeps_sorted (V : FilterView α) (k : α → ℚ) (L : List α) (f : ℚ)
    (htr : ∀ x ∈ L, V.truthy x = true)
    (hch : List.Chain' (fun a b => scaleLt V f b a = true) (sortDesc k L)) :
    fsRun V k L f = some (sortDesc k L) := by
  rw [fsRun]
  have hlen := (sortDesc_perm k L).length_eq
  rcases Nat.eq_zero_or_pos (sortDesc k L).length with h0 | hpos
  · rw [fsGo_exit _ _ _ _ _ _ _ (by omega), List.length_eq_zero.mp h0]
  · rw [fsGo_keepAll V f _ (fun x hx => htr x ((sortDesc_perm k L).mem_iff.mp hx)) hch
      (L.length + 1) 0 [] hpos (by omega)]
    simp

/-! ## Claims about `filterSizes` -/

/-- C6: `filterSizes` applied to the sample width list with the default
factor `0.8` returns exactly `[2000, 1440, 1100, 801, 380, 250, 200]`,
in that order. -/
theorem c6_filterSizes_example :
    filterSizes [200, 250, 380, 800, 801, 1000, 1050, 1100, 1440, 1900, 2000] defaultFactor
      = some [2000, 1440, 1100, 801, 380, 250, 200] := by
  have hsort : sortDesc id [(200 : ℚ), 250, 380, 800, 801, 1000, 1050, 1100, 1440, 1900, 2000]
      = [2000, 1900, 1440, 1100, 1050, 1000, 801, 800, 380, 250, 200] := by decide
  have e : ∀ b a : ℚ, a ≠ 0 → scaleLt numView defaultFactor b a = decide (b / a * (b / a) < 4 / 5) :=
    fun b a ha => scaleLt_num_eval _ b a ha
  have s1 : scaleLt numView defaultFactor 1900 2000 = false := by rw [e _ _ (by norm_num)]; norm_num
  have s2 : scaleLt numView defaultFactor 1440 2000 = true := by rw [e _ _ (by norm_num)]; norm_num
  have s3 : scaleLt numView defaultFactor 1100 1440 = true := by rw [e _ _ (by norm_num)]; norm_num
  have s4 : scaleLt numView defaultFactor 1050 1100 = false := by rw [e _ _ (by norm_num)]; norm_num
  have s5 : scaleLt numView defaultFactor 1000 1100 = false := by rw [e _ _ (by norm_num)]; norm_num
  have s6 : scaleLt numView defaultFactor 801 1100 = true := by rw [e _ _ (by norm_num)]; norm_num
  have s7 : scaleLt numView defaultFactor 800 801 = false := by rw [e _ _ (by norm_num)]; norm_num
  have s8 : scaleLt numView defaultFactor 380 801 = true := by rw [e _ _ (by norm_num)]; norm_num
  have s9 : scaleLt numView defaultFactor 250 380 = true := by rw [e _ _ (by norm_num)]; norm_num
  have s10 : scaleLt numView defaultFactor 200 250 = true := by rw [e _ _ (by norm_num)]; norm_num
  rw [filterSizes, fsRun, hsort]
  show fsGo numView defaultFactor [2000, 1900, 1440, 1100, 1050, 1000, 801, 800, 380, 250, 200]
    (11 + 1) 0 1 [] = _
  rw [fsGo_skip _ _ _ 11 0 1 [] 1900 (by norm_num) (by rfl) (by decide) s1]
  rw [fsGo_push _ _ _ 10 0 2 [] 1440 (by norm_num) (by rfl) (by decide) s2]
  rw [fsGo_push _ _ _ 9 2 3 _ 1100 (by norm_num) (by rfl) (by decide) s3]
  rw [fsGo_skip _ _ _ 8 3 4 _ 1050 (by norm_num) (by rfl) (by decide) s4]
  rw [fsGo_skip _ _ _ 7 3 5 _ 1000 (by norm_num) (by rfl) (by decide) s5]
  rw [fsGo_push _ _ _ 6 3 6 _ 801 (by norm_num) (by rfl) (by decide) s6]
  rw [fsGo_skip _ _ _ 5 6 7 _ 800 (by norm_num) (by rfl) (by decide) s7]
  rw [fsGo_push _ _ _ 4 6 8 _ 380 (by norm_num) (by rfl) (by decide) s8]
  rw [fsGo_push _ _ _ 3 8 9 _ 250 (by norm_num) (by rfl) (by decide) s9]
  rw [fsGo_push _ _ _ 2 9 10 _ 200 (by norm_num) (by rfl) (by decide) s10]
  rw [fsGo_stop _ _ _ 1 10 11 _ (by norm_num) (by decide)]
  rfl

/-- C7 counterexample: on the candidate list `[0]` the `filterSizes` loop
never terminates — no amount of fuel makes it return — so `filterSizes`
does not terminate on every input. -/
theorem c7_counterexample_zero_diverges :
    filterSizes [0] defaultFactor = none ∧
      ¬ ∃ n : ℕ, (fsGo numView defaultFactor (sortDesc id [0]) n 0 1 []).isSome = true := by
  have hs : sortDesc id [(0 : ℚ)] = [0] := rfl
  have key : ∀ (n j : ℕ) (acc : List ℚ), 1 ≤ j →
      fsGo numView defaultFactor [0] n 0 j acc = none := by
    intro n
    induction n with
    | zero => intro j acc hj; rfl
    | succ n ih =>
      intro j acc hj
      rw [fsGo_none_skip numView defaultFactor [0] n 0 j acc (by norm_num)
        (List.get?_eq_none.mpr (by simpa using hj)) (by decide)]
      exact ih (j + 1) acc (by omega)
  constructor
  · rw [filterSizes, fsRun, hs]
    exact key 2 1 [] le_rfl
  · rintro ⟨n, hn⟩
    rw [hs, key n 1 [] le_rfl] at hn
    simp at hn

/-- C7 (amended): `filterSizes` terminates on every candidate list — flat or
dimension pairs — of positive entries, within fuel linear in the list
length; a zero candidate (see the counterexample) makes the loop diverge. -/
theorem c7_termination_amended (L : List ℚ) (D : List Dimension) (f : ℚ)
    (hL : ∀ x ∈ L, 0 < x) (hD : ∀ x ∈ D, 0 < x.w ∧ 0 < x.h) :
    (filterSizes L f).isSome = true ∧ (filterSizesDim D f).isSome = true :=
  ⟨fsRun_isSome _ _ _ _ fun x hx => num_truthy (hL x hx),
   fsRun_isSome _ _ _ _ fun x _ => dim_truthy x⟩

/-- Witness for C7 at concrete inputs. -/
theorem c7_termination_witness :
    (filterSizes [7] (4 / 5)).isSome = true ∧ (filterSizesDim [⟨1, 2⟩] (4 / 5)).isSome = true :=
  c7_termination_amended [7] [⟨1, 2⟩] (4 / 5) (by norm_num) (by norm_num)

/-- C8: filtering is idempotent on positive candidate lists (flat widths or
dimension pairs) for any factor in `(0, 1]`: refiltering the output of
`filterSizes` returns it unchanged. -/
theorem c8_filter_idempotent (f : ℚ) (L : List ℚ) (D : List Dimension)
    (hf0 : 0 < f) (hf1 : f ≤ 1)
    (hL : ∀ x ∈ L, 0 < x) (hD : ∀ x ∈ D, 0 < x.w ∧ 0 < x.h)
    (O : List ℚ) (OD : List Dimension)
    (hO : filterSizes L f = some O) (hOD : filterSizesDim D f = some OD) :
    filterSizes O f = some O ∧ filterSizesDim OD f = some OD := by
  constructor
  · obtain ⟨hchain, hmem⟩ := fsRun_some_props numView id L O f hO
    have pos : ∀ x ∈ O, 0 < x := fun x hx => hL x (hmem x hx)
    have htr : ∀ x ∈ O, numView.truthy x = true := fun x hx => num_truthy (pos x hx)
    have hlt : List.Chain' (fun a b : ℚ => b < a) O :=
      chain_of_mem_imp hchain fun a ha b hb h => scaleLt_num_lt hf1 (pos a ha) (pos b hb) h
    haveI : IsTrans ℚ fun a b : ℚ => b < a := ⟨fun _ _ _ h1 h2 => lt_trans h2 h1⟩
    have hsorted : List.Sorted (fun a b : ℚ => id b ≤ id a) O :=
      (List.chain'_iff_pairwise.mp hlt).imp le_of_lt
    exact fsRun_keepAll numView id O f htr hsorted hchain
  · obtain ⟨hchain, hmem⟩ := fsRun_some_props dimView (fun d => d.w * d.h) D OD f hOD
    have pos : ∀ x ∈ OD, 0 < x.w ∧ 0 < x.h := fun x hx => hD x (hmem x hx)
    have htr : ∀ x ∈ OD, dimView.truthy x = true := fun x _ => dim_truthy x
    have hlt : List.Chain' (fun a b : Dimension => b.w * b.h < a.w * a.h) OD :=
      chain_of_mem_imp hchain fun a ha b _ h =>
        scaleLt_dim_lt hf1 (pos a ha).1 (pos a ha).2 h
    haveI : IsTrans Dimension fun a b : Dimension => b.w * b.h < a.w * a.h :=
      ⟨fun _ _ _ h1 h2 => lt_trans h2 h1⟩
    have hsorted : List.Sorted (fun a b : Dimension => b.w * b.h ≤ a.w * a.h) OD :=
      (List.chain'_iff_pairwise.mp hlt).imp le_of_lt
    exact fsRun_keepAll dimView (fun d => d.w * d.h) OD f htr hsorted hchain

/-- Witness for C8 at concrete inputs: `[3, 4]` filters to `[4, 3]`, and
refiltering `[4, 3]` keeps it. -/
theorem c8_filter_idempotent_witness :
    filterSizes [4, 3] (4 / 5) = some [4, 3] ∧ filterSizesDim [⟨2, 3⟩] (4 / 5) = some [⟨2, 3⟩] := by
  have h1 : filterSizes [3, 4] (4 / 5) = some [4, 3] := by
    have hsc : scaleLt numView (4 / 5) 3 4 = true := by
      rw [scaleLt_num_eval _ 3 4 (by norm_num)]; norm_num
    rw [filterSizes, fsRun]
    show fsGo numView (4 / 5) (sortDesc id [3, 4]) (2 + 1) 0 1 [] = _
    rw [show sortDesc id [(3 : ℚ), 4] = [4, 3] from by decide]
    rw [fsGo_push _ _ _ 2 0 1 [] 3 (by norm_num) (by rfl) (by decide) hsc]
    rw [fsGo_stop _ _ _ 1 1 2 _ (by norm_num) (by decide)]
    rfl
  have h2 : filterSizesDim [⟨2, 3⟩] (4 / 5) = some [⟨2, 3⟩] := by decide
  exact c8_filter_idempotent (4 / 5) [3, 4] [⟨2, 3⟩] (by norm_num) (by norm_num)
    (by norm_num) (by norm_num) [4, 3] [⟨2, 3⟩] h1 h2

/-- C9 counterexample: with factor `1.0` and the duplicate-containing list
`[5, 5]`, `filterSizes` returns `[5]`, not the full sorted input `[5, 5]` —
so factor `1` does not keep everything. -/
theorem c9_counterexample_duplicate :
    filterSizes [5, 5] 1 = some [5] ∧ sortDesc id [(5 : ℚ), 5] = [5, 5] := by
  refine ⟨?_, by decide⟩
  have hsc : scaleLt numView 1 5 5 = false := by
    rw [scaleLt_num_eval _ 5 5 (by norm_num)]; norm_num
  rw [filterSizes, fsRun]
  show fsGo numView 1 (sortDesc id [5, 5]) (2 + 1) 0 1 [] = _
  rw [show sortDesc id [(5 : ℚ), 5] = [5, 5] from by decide]
  rw [fsGo_skip _ _ _ 2 0 1 [] 5 (by norm_num) (by rfl) (by decide) hsc]
  rw [fsGo_stop _ _ _ 1 0 2 _ (by norm_num) (by decide)]
  rfl

/-- C9 (amended): on a positive candidate list whose entries (flat values,
resp. areas) are pairwise distinct, `filterSizes` with factor `1` keeps
everything: it returns the full input sorted descending. -/
theorem c9_factor_one_amended (L : List ℚ) (D : List Dimension)
    (hL : ∀ x ∈ L, 0 < x) (hD : ∀ x ∈ D, 0 < x.w ∧ 0 < x.h)
    (hdL : L.Pairwise (· ≠ ·)) (hdD : D.Pairwise fun a b => a.w * a.h ≠ b.w * b.h) :
    filterSizes L 1 = some (sortDesc id L) ∧
      filterSizesDim D 1 = some (sortDesc (fun d => d.w * d.h) D) := by
  constructor
  · have hperm := sortDesc_perm id L
    have posS : ∀ x ∈ sortDesc id L, 0 < x := fun x hx => hL x (hperm.mem_iff.mp hx)
    have hsorted : List.Sorted (fun a b : ℚ => id b ≤ id a) (sortDesc id L) :=
      sortDesc_sorted id L
    have hne : (sortDesc id L).Pairwise (· ≠ ·) :=
      (hperm.pairwise_iff fun h => h.symm).mpr hdL
    have hstrict : (sortDesc id L).Pairwise fun a b : ℚ => b < a :=
      (hsorted.and hne).imp fun h => lt_of_le_of_ne h.1 (Ne.symm h.2)
    have hchain : List.Chain' (fun a b => scaleLt numView 1 b a = true) (sortDesc id L) :=
      chain_of_mem_imp hstrict.chain' fun a ha b hb h =>
        scaleLt_num_of_lt (posS a ha) (posS b hb) h
    exact fsRun_keeps_sorted numView id L 1 (fun x hx => num_truthy (hL x hx)) hchain
  · have hperm := sortDesc_perm (fun d : Dimension => d.w * d.h) D
    have posS : ∀ x ∈ sortDesc (fun d : Dimension => d.w * d.h) D, 0 < x.w ∧ 0 < x.h :=
      fun x hx => hD x (hperm.mem_iff.mp hx)
    have hsorted := sortDesc_sorted (fun d : Dimension => d.w * d.h) D
    have hne : (sortDesc (fun d : Dimension => d.w * d.h) D).Pairwise
        (fun a b => a.w * a.h ≠ b.w * b.h) :=
      (hperm.pairwise_iff fun h => h.symm).mpr hdD
    have hstrict : (sortDesc (fun d : Dimension => d.w * d.h) D).Pairwise
        fun a b : Dimension => b.w * b.h < a.w * a.h :=
      (hsorted.and hne).imp fun h => lt_of_le_of_ne h.1 (Ne.symm h.2)
    have hchain := chain_of_mem_imp hstrict.chain' fun a ha b _ h =>
      scaleLt_dim_of_lt (posS a ha).1 (posS a ha).2 h
    exact fsRun_keeps_sorted dimView (fun d => d.w * d.h) D 1 (fun x _ => dim_truthy x) hchain

/-- Witness for C9 at concrete inputs. -/
theorem c9_factor_one_witness :
    filterSizes [2, 6] 1 = some (sortDesc id [2, 6]) ∧
      filterSizesDim [⟨1, 2⟩, ⟨3, 1⟩] 1 = some (sortDesc (fun d => d.w * d.h) [⟨1, 2⟩, ⟨3, 1⟩]) :=
  c9_factor_one_amended [2, 6] [⟨1, 2⟩, ⟨3, 1⟩] (by norm_num) (by norm_num)
    (by norm_num) (by norm_num [List.pairwise_cons])


/-! ## The Device Image Resolver (`deviceImages`)

Modelled from the spec: the repository's test suite imports `deviceImages`
from `src/utilities`, but that function is not present in the copy of
`src/utilities.ts` under verification — only `deviceWidths` is.  The
definitions below follow the specification's §4.2 "Device Image Resolver"
algorithm: orientation enumeration, first-match rule selection with the
implicit `100vw` fallback, `vw`/`px` width resolution, and density
expansion in density order. -/

/-- Modelled from the spec: a device orientation. -/
inductive Orientation where
  | landscape
  | portrait
deriving DecidableEq

/-- Modelled from the spec: the orientation label of a variant, derived
purely from the relative magnitude of `w` vs `h`; `"landscape"` is the
label for `w ≥ h`. -/
def orientationLabel (w h : ℚ) : Orientation :=
  if h ≤ w then .landscape else .portrait

/-- Modelled from the spec: a resolved image `{w, density, orientation}`. -/
structure QueryImage where
  w : ℤ
  dppx : ℚ
  orientation : Orientation
deriving DecidableEq

/-- Modelled from the spec: scan the rules in order and select the width of
the first rule whose conditions all hold for a `w × h` variant; if none
matches, the implicit fallback width is the literal `"100vw"`. -/
def specSelectRuleWidth (sizes : List Size) (w h : ℚ) : String :=
  match sizes.find? (ruleMatches ⟨w, h, [], false⟩) with
  | some s => s.width
  | none => "100vw"

/-- Modelled from the spec: resolve a width token against a variant width —
`vw` means `w * magnitude / 100`, `px` or no unit means the magnitude, and
any other unit is a fatal parse error naming the unit. -/
def specResolveWidth (w : ℚ) (tok : String) : Except String ℚ :=
  match cssValue tok with
  | (.num q, u) =>
    if u = "vw" then .ok (w * q / 100)
    else if u = "px" ∨ u = "" then .ok q
    else .error ("Invalid width unit " ++ u)
  | _ => .error ("Invalid width " ++ tok)

/-- Modelled from the spec: the images of one orientation variant, one per
density, in density order, labelled with the variant's orientation. -/
def specVariantImages (sizes : List Size) (w h : ℚ) (dppx : List ℚ) :
    Except String (List QueryImage) :=
  match specResolveWidth w (specSelectRuleWidth sizes w h) with
  | .error e => .error e
  | .ok ew => .ok (dppx.map fun x => ⟨⌈ew * x⌉, x, orientationLabel w h⟩)

/-- Modelled from the spec: the orientation variants to test — the device
as-is plus, when `flip` is set, a synthetic variant with `w`/`h` swapped. -/
def deviceVariants (d : Device) : List (ℚ × ℚ) :=
  [(d.w, d.h)] ++ (if d.flip then [(d.h, d.w)] else [])

/-- Modelled from the spec: resolves each variant in turn, concatenating
their image lists (natural orientation first). -/
def variantsImages (sizes : List Size) (dppx : List ℚ) :
    List (ℚ × ℚ) → Except String (List QueryImage)
  | [] => .ok []
  | v :: rest =>
    match specVariantImages sizes v.1 v.2 dppx with
    | .error e => .error e
    | .ok l =>
      match variantsImages sizes dppx rest with
      | .error e => .error e
      | .ok ls => .ok (l ++ ls)

/-- Modelled from the spec: `deviceImages(sizes, device)`. -/
def deviceImages (sizes : List Size) (d : Device) : Except String (List QueryImage) :=
  variantsImages sizes d.dppx (deviceVariants d)

/-- Every image a variant emits carries that variant's orientation label. -/
theorem specVariantImages_orientation (sizes : List Size) (w h : ℚ) (dppx : List ℚ)
    (l : List QueryImage) (hl : specVariantImages sizes w h dppx = .ok l) :
    ∀ img ∈ l, img.orientation = orientationLabel w h := by
  rw [specVariantImages] at hl
  rcases hr : specResolveWidth w (specSelectRuleWidth sizes w h) with e | ew
  · rw [hr] at hl; exact absurd hl (by simp)
  · rw [hr] at hl
    obtain rfl := Except.ok.inj hl
    intro img himg
    obtain ⟨x, _, rfl⟩ := List.mem_map.mp himg
    rfl

/-- C3: a device with the rotation flag set resolves, in addition to the
device as-is, a second synthetic variant with `w` and `h` swapped, whose
images are appended to the output and labelled with the swapped variant's
orientation (`landscape` iff its own `w ≥ h`, which is the opposite label
whenever `w ≠ h`); with the flag unset only the natural orientation
contributes. -/
theorem c3_rotation_variants (sizes : List Size) (d : Device) (l1 : List QueryImage)
    (h1 : specVariantImages sizes d.w d.h d.dppx = .ok l1) :
    (d.flip = false → deviceImages sizes d = .ok l1) ∧
      (d.flip = true → ∀ l2 : List QueryImage,
        specVariantImages sizes d.h d.w d.dppx = .ok l2 →
          deviceImages sizes d = .ok (l1 ++ l2) ∧
          (∀ img ∈ l2, img.orientation = orientationLabel d.h d.w) ∧
          (∀ img ∈ l1, img.orientation = orientationLabel d.w d.h) ∧
          (d.w ≠ d.h → orientationLabel d.h d.w ≠ orientationLabel d.w d.h)) := by
  constructor
  · intro hflip
    have hv : deviceVariants d = [(d.w, d.h)] := by rw [deviceVariants, hflip]; simp
    rw [deviceImages, hv, variantsImages, h1, variantsImages]
    simp
  · intro hflip l2 h2
    refine ⟨?_, specVariantImages_orientation sizes d.h d.w d.dppx l2 h2,
      specVariantImages_orientation sizes d.w d.h d.dppx l1 h1, ?_⟩
    · have hv : deviceVariants d = [(d.w, d.h), (d.h, d.w)] := by
        rw [deviceVariants, hflip]; simp
      rw [deviceImages, hv, variantsImages, h1, variantsImages, h2, variantsImages]
      simp
    · intro hne
      rcases lt_or_gt_of_ne hne with hlt | hlt
      · rw [orientationLabel, orientationLabel, if_pos (le_of_lt hlt), if_neg (not_le.mpr hlt)]
        decide
      · rw [orientationLabel, orientationLabel, if_neg (not_le.mpr hlt), if_pos (le_of_lt hlt)]
        decide

/-- Witness for C3 at a concrete flippable device. -/
theorem c3_rotation_variants_witness :
    deviceImages [⟨[], "500px"⟩] ⟨800, 700, [1], true⟩
      = .ok [⟨500, 1, .landscape⟩, ⟨500, 1, .portrait⟩] := by
  have hc : cssValue "500px" = (.num 500, "px") := by decide
  have h1 : specVariantImages [⟨[], "500px"⟩] 800 700 [1] = .ok [⟨500, 1, .landscape⟩] := by
    have hsel : specSelectRuleWidth [⟨[], "500px"⟩] 800 700 = "500px" := rfl
    rw [specVariantImages, hsel]
    simp only [specResolveWidth, hc, orientationLabel]
    rw [if_neg (show ("px" : String) ≠ "vw" by decide)]
    norm_num
  have h2 : specVariantImages [⟨[], "500px"⟩] 700 800 [1] = .ok [⟨500, 1, .portrait⟩] := by
    have hsel : specSelectRuleWidth [⟨[], "500px"⟩] 700 800 = "500px" := rfl
    rw [specVariantImages, hsel]
    simp only [specResolveWidth, hc, orientationLabel]
    rw [if_neg (show ("px" : String) ≠ "vw" by decide)]
    norm_num
  have hres := (c3_rotation_variants [⟨[], "500px"⟩] ⟨800, 700, [1], true⟩
    [⟨500, 1, .landscape⟩] h1).2 rfl [⟨500, 1, .portrait⟩] h2
  simpa using hres.1

end StaticImages
